import Mathlib

/-!
Verification of the recurring-invoice scheduler and financial dashboard
(`ensure_future_invoices` and `get_financial_dashboard` from `app.py`).

The Python code is shallowly embedded: the invoice table becomes a list of
rows, the orders/products lookups become a read-only environment, dates are
a calendar-date structure with Gregorian day arithmetic, DECIMAL amounts
become rationals, and the data-access layer's possible failures become an
explicit fault oracle in a second, fault-aware variant of the scheduler.
-/

set_option maxRecDepth 40000

namespace Leanttro

/-- Calendar date, mirroring Python `datetime.date` (year, month, day). -/
structure Date where
  year : Nat
  month : Nat
  day : Nat
deriving DecidableEq, Repr

/-- Gregorian leap-year test. -/
def isLeap (y : Nat) : Bool :=
  (y % 4 == 0 && y % 100 != 0) || y % 400 == 0

/-- Number of days in a month of a given year. -/
def daysInMonth (y m : Nat) : Nat :=
  if m = 2 then (if isLeap y then 29 else 28)
  else if m = 4 ∨ m = 6 ∨ m = 9 ∨ m = 11 then 30
  else 31

/-- The day after a given date (used to embed `timedelta(days=n)` addition). -/
def Date.next (d : Date) : Date :=
  if d.day < daysInMonth d.year d.month then ⟨d.year, d.month, d.day + 1⟩
  else if d.month < 12 then ⟨d.year, d.month + 1, 1⟩
  else ⟨d.year + 1, 1, 1⟩

/-- `d` plus `n` days, i.e. Python `d + timedelta(n)`. -/
def Date.addDays (d : Date) : Nat → Date
  | 0 => d
  | n + 1 => (Date.addDays d n).next

/-- Numeric key realizing the lexicographic (year, month, day) order that
SQL `ORDER BY due_date` and Python date comparison use; it agrees with date
order on all in-range dates (month ≤ 12 and day ≤ 31). -/
def Date.key (d : Date) : Nat := d.year * 10000 + d.month * 100 + d.day

/-- Days from the start of year `y` to the start of month `m` of year `y`. -/
def daysBeforeMonth (y m : Nat) : Nat :=
  (List.range (m - 1)).foldl (fun acc k => acc + daysInMonth y (k + 1)) 0

/-- Rata-die style day count (days since a fixed epoch), used to embed
Python's `(a - b).days`. -/
def Date.toRD (d : Date) : Nat :=
  365 * (d.year - 1) + (d.year - 1) / 4 - (d.year - 1) / 100 + (d.year - 1) / 400
    + daysBeforeMonth d.year d.month + d.day

/-- Signed day difference `(a - b).days` of Python dates. -/
def Date.sub (a b : Date) : Int := (a.toRD : Int) - (b.toRD : Int)

/-- In-range bounds that every SQL `DATE` value satisfies; enough for the
numeric key to realize true date order. -/
def Date.InRange (d : Date) : Prop := 1 ≤ d.month ∧ d.month ≤ 12 ∧ d.day ≤ 31

instance (d : Date) : Decidable d.InRange := by
  unfold Date.InRange; infer_instance

/-- Full validity as enforced by Python's `date` constructor. -/
def Date.Valid (d : Date) : Prop :=
  1 ≤ d.year ∧ 1 ≤ d.month ∧ d.month ≤ 12 ∧ 1 ≤ d.day ∧ d.day ≤ daysInMonth d.year d.month

instance (d : Date) : Decidable d.Valid := by
  unfold Date.Valid; infer_instance

/-- Invoice status: the code only ever stores `'pending'` (at insertion)
and `'paid'` (set by the payment webhook). -/
inductive Status where
  | pending
  | paid
deriving DecidableEq, Repr

/-- A row of the `invoices` table (the columns the billing core reads). -/
structure Invoice where
  id : Nat
  client_id : Nat
  amount : ℚ
  due_date : Date
  status : Status
deriving DecidableEq, Repr

/-- The invoice store: the `invoices` table plus the `SERIAL` id counter. -/
structure Store where
  rows : List Invoice
  next_id : Nat
deriving DecidableEq, Repr

/-- One row of the orders/products join
`SELECT o.total_monthly, p.price_monthly, o.created_at ... ORDER BY o.id ASC`;
all three columns are nullable (`LEFT JOIN`, nullable columns). -/
structure OrderRow where
  total_monthly : Option ℚ
  price_monthly : Option ℚ
  order_date : Option Date
deriving DecidableEq, Repr

/-- Read-only environment: the subscription data provider and the clock.
`defaultPrice` is the result of
`SELECT price_monthly FROM products WHERE is_active = TRUE AND price_monthly > 0 LIMIT 1`. -/
structure Env where
  orders : Nat → List OrderRow
  defaultPrice : Option ℚ
  today : Date

/-- `WHERE client_id = c` filter. -/
def rowsOf (s : Store) (c : Nat) : List Invoice :=
  s.rows.filter (fun r => decide (r.client_id = c))

/-- `SELECT COUNT(*) FROM invoices WHERE client_id = c AND status = 'pending'`. -/
def countPending (s : Store) (c : Nat) : Nat :=
  ((rowsOf s c).filter (fun r => decide (r.status = Status.pending))).length

/-- Maximum due date of a list of rows (accumulator version). -/
def maxDue : List Invoice → Option Date → Option Date
  | [], acc => acc
  | r :: rs, acc =>
    match acc with
    | none => maxDue rs (some r.due_date)
    | some m => maxDue rs (some (if m.key < r.due_date.key then r.due_date else m))

/-- `SELECT due_date FROM invoices WHERE client_id = c ORDER BY due_date DESC LIMIT 1`. -/
def lastDueDate (s : Store) (c : Nat) : Option Date :=
  maxDue (rowsOf s c) none

/-- `SELECT id FROM invoices WHERE client_id = c AND due_date = d` is nonempty. -/
def hasDueB (s : Store) (c : Nat) (d : Date) : Bool :=
  s.rows.any (fun r => decide (r.client_id = c ∧ r.due_date = d))

/-- `INSERT INTO invoices (client_id, amount, due_date, status) VALUES (c, a, d, 'pending')`. -/
def appendRow (c : Nat) (a : ℚ) (d : Date) (s : Store) : Store :=
  ⟨s.rows ++ [⟨s.next_id, c, a, d, Status.pending⟩], s.next_id + 1⟩

/-- The guarded insert of the generation loop: skip silently when an invoice
with this exact due date already exists for this client. -/
def insertIfAbsent (c : Nat) (a : ℚ) (d : Date) (s : Store) : Store :=
  if hasDueB s c d then s else appendRow c a d s

/-- The generation loop body `for i in range(1, needed + 1)` applied to the
precomputed list of due dates. -/
def insertLoop (c : Nat) (a : ℚ) (ds : List Date) (s : Store) : Store :=
  ds.foldl (fun st d => insertIfAbsent c a d st) s

/-- Due date of the `i`-th generated invoice:
`calc_month = start_month + i; year_offset = (calc_month - 1) // 12;`
`final_month = (calc_month - 1) % 12 + 1; date(start_year + year_offset, final_month, 10)`. -/
def dueFor (start_year start_month i : Nat) : Date :=
  ⟨start_year + (start_month + i - 1) / 12, (start_month + i - 1) % 12 + 1, 10⟩

/-- The due dates generated for `i = 1 .. needed`. -/
def genDates (start_year start_month needed : Nat) : List Date :=
  (List.range' 1 needed).map (dueFor start_year start_month)

/-- The price/first-order-date scan over the client's orders, in order:
`float(o['total_monthly'] or 0)` / `float(o['price_monthly'] or 0)`,
overwriting `first_order_date` with each non-null `created_at`, breaking at
the first positive value. -/
def scanOrders : List OrderRow → Date → ℚ × Date
  | [], fod => (0, fod)
  | o :: rest, fod =>
    if 0 < o.total_monthly.getD 0 then
      (o.total_monthly.getD 0,
        match o.order_date with
        | some d => d
        | none => fod)
    else if 0 < o.price_monthly.getD 0 then
      (o.price_monthly.getD 0,
        match o.order_date with
        | some d => d
        | none => fod)
    else
      scanOrders rest
        (match o.order_date with
         | some d => d
         | none => fod)

/-- Monthly price discovery including the active-product fallback, paired
with the `first_order_date` the scan left behind. -/
def discoverPrice (env : Env) (c : Nat) : ℚ × Date :=
  (if (scanOrders (env.orders c) env.today).1 ≤ 0 then
    (match env.defaultPrice with
     | some q => q
     | none => (scanOrders (env.orders c) env.today).1)
   else (scanOrders (env.orders c) env.today).1,
   (scanOrders (env.orders c) env.today).2)

/-- First due date of a brand-new subscriber: `free_until = first_order_date
+ 30 days`; the 10th of `free_until`'s month (`target_due_date`), advanced
one month when that 10th is strictly earlier than `free_until`. -/
def graceFirstDue (fod : Date) : Date :=
  if (Date.mk (fod.addDays 30).year (fod.addDays 30).month 10).key
      < (fod.addDays 30).key then
    (if (fod.addDays 30).month = 12
     then ⟨(fod.addDays 30).year + 1, 1, 10⟩
     else ⟨(fod.addDays 30).year, (fod.addDays 30).month + 1, 10⟩)
  else ⟨(fod.addDays 30).year, (fod.addDays 30).month, 10⟩

/-- The loop anchor for a brand-new subscriber: one month before the first
due date (`start_month = target.month - 1`, borrowing a year at month 0). -/
def graceAnchor (fod : Date) : Nat × Nat :=
  if (graceFirstDue fod).month - 1 = 0 then ((graceFirstDue fod).year - 1, 12)
  else ((graceFirstDue fod).year, (graceFirstDue fod).month - 1)

/-- The (year, month) anchor of the generation loop: the month of the
latest existing due date when one exists, otherwise the grace anchor. -/
def anchorOf (s : Store) (c : Nat) (fod : Date) : Nat × Nat :=
  match lastDueDate s c with
  | some last => (last.year, last.month)
  | none => graceAnchor fod

/-- Steps 4-5 of the scheduler, after the monthly price and first-order date
are known: count pending, and when `needed = 12 - count > 0` generate the
missing due dates from the anchor. -/
def ensureRest (price : ℚ) (fod : Date) (c : Nat) (s : Store) : Store :=
  if price ≤ 0 then s
  else if countPending s c < 12 then
    insertLoop c price
      (genDates (anchorOf s c fod).1 (anchorOf s c fod).2 (12 - countPending s c)) s
  else s

/-- `ensure_future_invoices(client_id)`: discover the price, then top the
pending window up to 12 invoices. -/
def ensure_future_invoices (env : Env) (c : Nat) (s : Store) : Store :=
  ensureRest (discoverPrice env c).1 (discoverPrice env c).2 c s

/-! ### Financial dashboard -/

/-- Dashboard global status: `"ok"`, `"warning"`, `"overdue"`. -/
inductive GlobalStatus where
  | ok
  | warning
  | overdue
deriving DecidableEq, Repr

/-- Dashboard message: `"EM DIA"` (current), `"BLOQUEADO (FATURA ATRASADA)"`
(blocked, overdue invoice), `"VENCE HOJE"` (due today). -/
inductive Message where
  | em_dia
  | bloqueado
  | vence_hoje
deriving DecidableEq, Repr

/-- Per-invoice display label: `"A VENCER"`, `"ATRASADO"`, `"VENCE HOJE"`,
`"EM ABERTO (FUTURA)"`. -/
inductive Label where
  | a_vencer
  | atrasado
  | vence_hoje
  | em_aberto_futura
deriving DecidableEq, Repr

/-- One entry of the dashboard's `invoices` list. -/
structure InvView where
  id : Nat
  amount : ℚ
  label : Label
deriving DecidableEq, Repr

/-- The dashboard read model. -/
structure DashInfo where
  status_global : GlobalStatus
  message : Message
  invoices : List InvView
  total_pending : ℚ
  total_annual_discounted : ℚ
  annual_savings : ℚ
deriving DecidableEq, Repr

/-- The `info` dictionary's initial value. -/
def defaultInfo : DashInfo :=
  ⟨GlobalStatus.ok, Message.em_dia, [], 0, 0, 0⟩

/-- One iteration of the dashboard's classification loop over a pending
invoice, with `delta = (today - due).days`. -/
def classifyStep (today : Date) (info : DashInfo) (inv : Invoice) : DashInfo :=
  if 3 < today.sub inv.due_date then
    { info with
      status_global := GlobalStatus.overdue
      message := Message.bloqueado
      invoices := info.invoices ++ [⟨inv.id, inv.amount, Label.atrasado⟩]
      total_pending := info.total_pending + inv.amount }
  else if 0 ≤ today.sub inv.due_date then
    { info with
      status_global :=
        if info.status_global ≠ GlobalStatus.overdue then GlobalStatus.warning
        else info.status_global
      message :=
        if info.message ≠ Message.bloqueado then Message.vence_hoje
        else info.message
      invoices := info.invoices ++ [⟨inv.id, inv.amount, Label.vence_hoje⟩]
      total_pending := info.total_pending + inv.amount }
  else
    { info with
      invoices := info.invoices ++ [⟨inv.id, inv.amount, Label.em_aberto_futura⟩]
      total_pending := info.total_pending + inv.amount }

/-- `SELECT id, amount, due_date, status FROM invoices WHERE client_id = c
AND status = 'pending' ORDER BY due_date ASC`. -/
def pendingSorted (s : Store) (c : Nat) : List Invoice :=
  List.insertionSort (fun a b => a.due_date.key ≤ b.due_date.key)
    (s.rows.filter (fun r => decide (r.client_id = c ∧ r.status = Status.pending)))

/-- The classification loop over all pending invoices. -/
def classifyAll (today : Date) (L : List Invoice) : DashInfo :=
  L.foldl (classifyStep today) defaultInfo

/-- Annual-plan totals: when something is pending, a 10% discount on the
total and the corresponding savings. -/
def finalizeTotals (info : DashInfo) : DashInfo :=
  if 0 < info.total_pending then
    { info with
      total_annual_discounted := info.total_pending * (9 / 10)
      annual_savings := info.total_pending - info.total_pending * (9 / 10) }
  else info

/-- `get_financial_dashboard(client_id)`: run the scheduler first, then
classify the pending invoices; returns the read model and the (possibly
updated) store. -/
def get_financial_dashboard (env : Env) (c : Nat) (s : Store) : DashInfo × Store :=
  (finalizeTotals
      (classifyAll env.today (pendingSorted (ensure_future_invoices env c s) c)),
    ensure_future_invoices env c s)

/-! ### External payment-confirmation events (webhook writes) -/

/-- `UPDATE invoices SET status = 'paid' WHERE id = i` (single-invoice payment). -/
def payInvoice (i : Nat) (s : Store) : Store :=
  ⟨s.rows.map (fun r => if r.id = i then { r with status := Status.paid } else r), s.next_id⟩

/-- `UPDATE invoices SET status = 'paid' WHERE client_id = c AND status = 'pending'`
(annual prepayment). -/
def payAllPending (c : Nat) (s : Store) : Store :=
  ⟨s.rows.map (fun r =>
      if r.client_id = c ∧ r.status = Status.pending then { r with status := Status.paid } else r),
    s.next_id⟩

/-- Invoice-store states reachable by the program: the store starts empty
(the table is created fresh), and is only written by the scheduler, the
dashboard (which runs the scheduler), and the payment webhook. -/
inductive Reachable : Store → Prop where
  | empty : Reachable ⟨[], 1⟩
  | ensure (env : Env) (c : Nat) {s : Store} :
      Reachable s → Reachable (ensure_future_invoices env c s)
  | dash (env : Env) (c : Nat) {s : Store} :
      Reachable s → Reachable (get_financial_dashboard env c s).2
  | pay (i : Nat) {s : Store} : Reachable s → Reachable (payInvoice i s)
  | payAll (c : Nat) {s : Store} : Reachable s → Reachable (payAllPending c s)

/-! ### Fault-injected variants (data-access errors)

Each numbered data-access operation consults a fault oracle; a faulty
operation raises, the surrounding `except` swallows the exception and the
transaction is rolled back, so the published store is the original one. -/

/-- The generation loop with fault injection: one oracle index for each
duplicate-check `SELECT`, one for each executed `INSERT`. -/
def loopF (oracle : Nat → Bool) (c : Nat) (a : ℚ) :
    List Date → Nat → Store → Except Unit (Nat × Store)
  | [], k, st => Except.ok (k, st)
  | d :: ds, k, st =>
    if oracle k then Except.error ()
    else if hasDueB st c d then loopF oracle c a ds (k + 1) st
    else if oracle (k + 1) then Except.error ()
    else loopF oracle c a ds (k + 2) (appendRow c a d st)

/-- Steps 4-5 of the scheduler with fault injection: the pending `COUNT`,
the latest-due-date `SELECT`, the loop, and the final `COMMIT`. -/
def bodyRest (oracle : Nat → Bool) (k : Nat) (price : ℚ) (fod : Date) (c : Nat) (s : Store) :
    Except Unit Store :=
  if price ≤ 0 then Except.ok s
  else if oracle k then Except.error ()
  else if countPending s c < 12 then
    if oracle (k + 1) then Except.error ()
    else
      match loopF oracle c price
          (genDates (anchorOf s c fod).1 (anchorOf s c fod).2 (12 - countPending s c))
          (k + 2) s with
      | Except.error _ => Except.error ()
      | Except.ok (k2, st) => if oracle k2 then Except.error () else Except.ok st
  else Except.ok s

/-- The whole scheduler body with fault injection: the `CREATE TABLE`, the
orders `SELECT`, the conditional fallback-product `SELECT`, then the rest. -/
def bodyF (oracle : Nat → Bool) (env : Env) (c : Nat) (s : Store) : Except Unit Store :=
  if oracle 0 then Except.error ()
  else if oracle 1 then Except.error ()
  else
    let pf := scanOrders (env.orders c) env.today
    if pf.1 ≤ 0 then
      if oracle 2 then Except.error ()
      else
        bodyRest oracle 3
          (match env.defaultPrice with
           | some q => q
           | none => pf.1) pf.2 c s
    else bodyRest oracle 2 pf.1 pf.2 c s

/-- `ensure_future_invoices` under fault injection: a raised data-access
error is caught, the transaction rolled back, and nothing is re-raised. -/
def ensure_faulty (oracle : Nat → Bool) (env : Env) (c : Nat) (s : Store) : Store :=
  match bodyF oracle env c s with
  | Except.error _ => s
  | Except.ok st => st

/-- `get_financial_dashboard` under fault injection: the scheduler runs with
its own oracle; when the dashboard's own invoice `SELECT` (or its connection)
fails, the pre-built default `info` is returned unchanged. -/
def dashboard_faulty (oracle : Nat → Bool) (readFails : Bool) (env : Env) (c : Nat) (s : Store) :
    DashInfo × Store :=
  if readFails then (defaultInfo, ensure_faulty oracle env c s)
  else
    (finalizeTotals
        (classifyAll env.today (pendingSorted (ensure_faulty oracle env c s) c)),
      ensure_faulty oracle env c s)

/-! ### Specification-side helper definitions -/

/-- The rows appended by a run of the generation loop in which every
duplicate check came back empty, with sequentially assigned ids. -/
def newRows (c : Nat) (a : ℚ) : Nat → List Date → List Invoice
  | _, [] => []
  | n, d :: ds => ⟨n, c, a, d, Status.pending⟩ :: newRows c a (n + 1) ds

/-- Advancing a (year, month) pair by one calendar month, the spec's
reading of "anchor month + i, rolling over year boundaries". -/
def nextMonth : Nat × Nat → Nat × Nat
  | (y, m) => if m = 12 then (y + 1, 1) else (y, m + 1)

/-- `delta = (today - due_date).days` of a pending invoice. -/
def deltaOf (today : Date) (inv : Invoice) : Int := today.sub inv.due_date

/-- The invoice is more than 3 days past due. -/
def isLate (today : Date) (inv : Invoice) : Bool := decide (3 < deltaOf today inv)

/-- The invoice is due today or within the 3-day tolerance. -/
def isDueNow (today : Date) (inv : Invoice) : Bool :=
  decide (0 ≤ deltaOf today inv ∧ deltaOf today inv ≤ 3)

/-- The label the classification pass assigns from `delta` alone. -/
def labelFor (delta : Int) : Label :=
  if 3 < delta then Label.atrasado
  else if 0 ≤ delta then Label.vence_hoje
  else Label.em_aberto_futura

/-- The dashboard entry produced for one pending invoice. -/
def viewOf (today : Date) (inv : Invoice) : InvView :=
  ⟨inv.id, inv.amount, labelFor (deltaOf today inv)⟩

/-- The global status determined by the whole pending list: overdue beats
warning beats ok. -/
def statusOf (today : Date) (L : List Invoice) : GlobalStatus :=
  if L.any (isLate today) then GlobalStatus.overdue
  else if L.any (isDueNow today) then GlobalStatus.warning
  else GlobalStatus.ok

/-- The message determined by the whole pending list. -/
def messageOf (today : Date) (L : List Invoice) : Message :=
  if L.any (isLate today) then Message.bloqueado
  else if L.any (isDueNow today) then Message.vence_hoje
  else Message.em_dia

/-- Per-subscriber due-date uniqueness: no two invoices of one client share
a due date. -/
def DistinctDues (s : Store) : Prop :=
  ∀ c, (rowsOf s c).Pairwise (fun a b => a.due_date ≠ b.due_date)

/-- Same invariant phrased on the whole table at once. -/
def DistinctRows (s : Store) : Prop :=
  s.rows.Pairwise (fun a b => a.client_id = b.client_id → a.due_date ≠ b.due_date)

/-- The structural facts every program-reachable store satisfies: stored
dates are real SQL dates, no client has more than 12 pending invoices, and
amounts are nonnegative. -/
def GoodStore (s : Store) : Prop :=
  (∀ r ∈ s.rows, r.due_date.InRange) ∧ (∀ c, countPending s c ≤ 12)
    ∧ (∀ r ∈ s.rows, 0 ≤ r.amount)

/-! ### Concrete fixtures for the worked examples -/

/-- The empty store the program starts from. -/
def store0 : Store := ⟨[], 1⟩

/-- A subscriber whose single order was created 2024-01-15 with monthly
charge 100. -/
def envGrace : Env := ⟨fun _ => [⟨some 100, none, some ⟨2024, 1, 15⟩⟩], none, ⟨2024, 6, 1⟩⟩

/-- An environment with no orders and no active fallback product, so no
price is discoverable; parameterized by the current date. -/
def envND (t : Date) : Env := ⟨fun _ => [], none, t⟩

/-- An environment whose orders never carry a positive recurring amount but
whose active-product fallback does. -/
def envFB : Env :=
  ⟨fun _ => [⟨some 0, none, some ⟨2024, 1, 5⟩⟩, ⟨none, some 0, some ⟨2024, 2, 7⟩⟩],
    some 50, ⟨2024, 3, 1⟩⟩

/-- A store holding one pending invoice due 2024-03-10. -/
def storeMar : Store := ⟨[⟨1, 1, 100, ⟨2024, 3, 10⟩, Status.pending⟩], 2⟩

/-- A store holding one pending invoice due 2024-04-01. -/
def storeApr : Store := ⟨[⟨7, 1, 100, ⟨2024, 4, 1⟩, Status.pending⟩], 8⟩

/-- A store holding one pending invoice of amount 1000, due far in the
future. -/
def storeK : Store := ⟨[⟨1, 1, 1000, ⟨2030, 1, 10⟩, Status.pending⟩], 2⟩

/-! ## Store lemmas -/

theorem hasDueB_iff {s : Store} {c : Nat} {d : Date} :
    hasDueB s c d = true ↔ ∃ r ∈ s.rows, r.client_id = c ∧ r.due_date = d := by
  simp [hasDueB]

theorem hasDueB_false_iff {s : Store} {c : Nat} {d : Date} :
    hasDueB s c d = false ↔ ∀ r ∈ s.rows, r.client_id = c → r.due_date ≠ d := by
  rw [← Bool.not_eq_true, hasDueB_iff]
  push_neg
  constructor
  · intro h r hr hc
    exact (h r hr) hc
  · intro h r hr hc
    exact (h r hr) hc

theorem newRows_map_due (c : Nat) (a : ℚ) :
    ∀ (n : Nat) (ds : List Date), (newRows c a n ds).map (fun r => r.due_date) = ds := by
  intro n ds
  induction ds generalizing n with
  | nil => simp [newRows]
  | cons d ds ih => simp [newRows, ih]

theorem newRows_length (c : Nat) (a : ℚ) :
    ∀ (n : Nat) (ds : List Date), (newRows c a n ds).length = ds.length := by
  intro n ds
  induction ds generalizing n with
  | nil => simp [newRows]
  | cons d ds ih => simp [newRows, ih]

theorem mem_newRows {c : Nat} {a : ℚ} :
    ∀ {n : Nat} {ds : List Date} {r : Invoice}, r ∈ newRows c a n ds →
      r.client_id = c ∧ r.amount = a ∧ r.status = Status.pending ∧ r.due_date ∈ ds := by
  intro n ds
  induction ds generalizing n with
  | nil => intro r hr; simp [newRows] at hr
  | cons d ds ih =>
    intro r hr
    rcases List.mem_cons.mp hr with h | h
    · subst h; simp
    · have := ih h
      exact ⟨this.1, this.2.1, this.2.2.1, List.mem_cons_of_mem _ this.2.2.2⟩

theorem insertLoop_eq (c : Nat) (a : ℚ) (ds : List Date) :
    ∀ s : Store, ds.Pairwise (· ≠ ·) → (∀ d ∈ ds, hasDueB s c d = false) →
      insertLoop c a ds s = ⟨s.rows ++ newRows c a s.next_id ds, s.next_id + ds.length⟩ := by
  induction ds with
  | nil => intro s _ _; simp [insertLoop, newRows]
  | cons d ds ih =>
    intro s hp habs
    have h0 : hasDueB s c d = false := habs d (List.mem_cons_self d ds)
    have hstep : insertIfAbsent c a d s = appendRow c a d s := by
      simp [insertIfAbsent, h0]
    have habs2 : ∀ d2 ∈ ds, hasDueB (appendRow c a d s) c d2 = false := by
      intro d2 hd2
      have hne : d ≠ d2 := (List.pairwise_cons.mp hp).1 d2 hd2
      have h2 := (hasDueB_false_iff).mp (habs d2 (List.mem_cons_of_mem _ hd2))
      rw [hasDueB_false_iff]
      intro r hr hrc
      rcases List.mem_append.mp hr with h | h
      · exact h2 r h hrc
      · have : r = ⟨s.next_id, c, a, d, Status.pending⟩ := by simpa using h
        subst this
        simpa using hne
    have hul : insertLoop c a (d :: ds) s = insertLoop c a ds (appendRow c a d s) := by
      simp [insertLoop, hstep]
    rw [hul, ih (appendRow c a d s) (List.pairwise_cons.mp hp).2 habs2]
    simp [appendRow, newRows]
    omega

theorem rowsOf_append (rows extra : List Invoice) (n : Nat) (c : Nat) :
    rowsOf ⟨rows ++ extra, n⟩ c = rowsOf ⟨rows, n⟩ c ++ rowsOf ⟨extra, n⟩ c := by
  simp [rowsOf]

theorem rowsOf_newRows (c : Nat) (a : ℚ) (n m : Nat) (ds : List Date) :
    rowsOf ⟨newRows c a n ds, m⟩ c = newRows c a n ds := by
  unfold rowsOf
  rw [List.filter_eq_self]
  intro r hr
  simp [(mem_newRows hr).1]

theorem countPending_newRows (c : Nat) (a : ℚ) (n m : Nat) (ds : List Date) :
    countPending ⟨newRows c a n ds, m⟩ c = ds.length := by
  unfold countPending
  have h1 : rowsOf ⟨newRows c a n ds, m⟩ c = newRows c a n ds := by
    unfold rowsOf
    rw [List.filter_eq_self]
    intro r hr
    simp [(mem_newRows hr).1]
  rw [h1, List.filter_eq_self.mpr]
  · exact newRows_length c a n ds
  · intro r hr
    simp [(mem_newRows hr).2.2.1]

theorem countPending_append (rows extra : List Invoice) (n m : Nat) (c : Nat) :
    countPending ⟨rows ++ extra, n⟩ c = countPending ⟨rows, n⟩ c + countPending ⟨extra, m⟩ c := by
  simp [countPending, rowsOf]

theorem maxDue_ub :
    ∀ (l : List Invoice) (acc : Option Date) (d : Date), maxDue l acc = some d →
      (∀ m, acc = some m → m.key ≤ d.key) ∧ (∀ r ∈ l, r.due_date.key ≤ d.key) := by
  intro l
  induction l with
  | nil =>
    intro acc d h
    refine ⟨fun m hm => ?_, fun r hr => absurd hr (List.not_mem_nil r)⟩
    simp [maxDue] at h
    rw [hm] at h
    simp_all
  | cons r rs ih =>
    intro acc d h
    cases acc with
    | none =>
      have h' : maxDue rs (some r.due_date) = some d := h
      have := ih (some r.due_date) d h'
      refine ⟨fun m hm => by simp at hm, fun r2 hr2 => ?_⟩
      rcases List.mem_cons.mp hr2 with h2 | h2
      · subst h2; exact this.1 _ rfl
      · exact this.2 r2 h2
    | some m0 =>
      have h' : maxDue rs (some (if m0.key < r.due_date.key then r.due_date else m0)) = some d := h
      have := ih _ d h'
      have hacc := this.1 _ rfl
      refine ⟨fun m hm => ?_, fun r2 hr2 => ?_⟩
      · cases hm
        by_cases hk : m0.key < r.due_date.key <;> simp [hk] at hacc <;> omega
      · rcases List.mem_cons.mp hr2 with h2 | h2
        · rw [h2]
          by_cases hk : m0.key < r.due_date.key <;> simp [hk] at hacc <;> omega
        · exact this.2 r2 h2

theorem maxDue_mem :
    ∀ (l : List Invoice) (acc : Option Date) (d : Date), maxDue l acc = some d →
      acc = some d ∨ ∃ r ∈ l, r.due_date = d := by
  intro l
  induction l with
  | nil => intro acc d h; left; simpa [maxDue] using h
  | cons r rs ih =>
    intro acc d h
    cases acc with
    | none =>
      rcases ih _ _ h with h2 | h2
      · right; exact ⟨r, List.mem_cons_self r rs, Option.some.inj h2⟩
      · right; obtain ⟨r2, hr2, he⟩ := h2; exact ⟨r2, List.mem_cons_of_mem _ hr2, he⟩
    | some m0 =>
      rcases ih _ _ h with h2 | h2
      · by_cases hk : m0.key < r.due_date.key
        · simp [hk] at h2
          right
          exact ⟨r, List.mem_cons_self r rs, h2⟩
        · simp [hk] at h2
          left
          rw [h2]
      · right; obtain ⟨r2, hr2, he⟩ := h2; exact ⟨r2, List.mem_cons_of_mem _ hr2, he⟩

theorem maxDue_none :
    ∀ (l : List Invoice) (acc : Option Date), maxDue l acc = none → l = [] ∧ acc = none := by
  intro l
  induction l with
  | nil => intro acc h; exact ⟨rfl, by simpa [maxDue] using h⟩
  | cons r rs ih =>
    intro acc h
    cases acc with
    | none =>
      have := ih _ h
      exact absurd this.2 (by simp)
    | some m0 =>
      have := ih _ h
      exact absurd this.2 (by simp)

theorem lastDueDate_none_iff {s : Store} {c : Nat} :
    lastDueDate s c = none ↔ rowsOf s c = [] := by
  constructor
  · intro h; exact (maxDue_none _ _ h).1
  · intro h; simp [lastDueDate, h, maxDue]

theorem lastDueDate_mem {s : Store} {c : Nat} {d : Date} (h : lastDueDate s c = some d) :
    ∃ r ∈ rowsOf s c, r.due_date = d := by
  rcases maxDue_mem _ _ _ h with h2 | h2
  · simp at h2
  · exact h2

theorem lastDueDate_ub {s : Store} {c : Nat} {d : Date} (h : lastDueDate s c = some d) :
    ∀ r ∈ rowsOf s c, r.due_date.key ≤ d.key :=
  (maxDue_ub _ _ _ h).2

theorem mem_rowsOf {s : Store} {c : Nat} {r : Invoice} :
    r ∈ rowsOf s c ↔ r ∈ s.rows ∧ r.client_id = c := by
  simp [rowsOf]

/-! ## Date-arithmetic lemmas -/

theorem dueFor_key_gt {last : Date} (h1 : 1 ≤ last.month) (h2 : last.month ≤ 12)
    (h3 : last.day ≤ 31) {i : Nat} (hi : 1 ≤ i) :
    last.key < (dueFor last.year last.month i).key := by
  rcases last with ⟨y, m, dy⟩
  simp only [dueFor, Date.key] at h1 h2 h3 ⊢
  omega

theorem dueFor_inj {y m i j : Nat} (hi : 1 ≤ i) (hj : 1 ≤ j)
    (h : dueFor y m i = dueFor y m j) : i = j := by
  simp only [dueFor, Date.mk.injEq] at h
  omega

theorem genDates_pairwise (y m n : Nat) : (genDates y m n).Pairwise (fun a b => a ≠ b) := by
  unfold genDates
  rw [List.pairwise_map]
  refine (List.pairwise_lt_range' 1 n).imp_of_mem ?_
  intro a b ha hb hab
  have ha1 : 1 ≤ a := by
    rcases List.mem_range'.mp ha with ⟨i, _, rfl⟩; omega
  have hb1 : 1 ≤ b := by
    rcases List.mem_range'.mp hb with ⟨i, _, rfl⟩; omega
  intro he
  exact absurd (dueFor_inj ha1 hb1 he) (Nat.ne_of_lt hab)

theorem genDates_length (y m n : Nat) : (genDates y m n).length = n := by
  simp [genDates]

theorem mem_genDates {y m n : Nat} {d : Date} (h : d ∈ genDates y m n) :
    ∃ i, 1 ≤ i ∧ d = dueFor y m i := by
  unfold genDates at h
  rcases List.mem_map.mp h with ⟨i, hi, rfl⟩
  rcases List.mem_range'.mp hi with ⟨k, _, rfl⟩
  exact ⟨1 + 1 * k, by omega, rfl⟩

/-! ## Scheduler structure lemmas -/

theorem hasDueB_false_of_empty {s : Store} {c : Nat} (h : rowsOf s c = []) (d : Date) :
    hasDueB s c d = false := by
  rw [hasDueB_false_iff]
  intro r hr hrc
  have hm : r ∈ rowsOf s c := mem_rowsOf.mpr ⟨hr, hrc⟩
  rw [h] at hm
  exact absurd hm (List.not_mem_nil r)

theorem hasDueB_false_of_last {s : Store} {c : Nat} {last : Date}
    (hl : lastDueDate s c = some last)
    (hval : ∀ r ∈ s.rows, r.client_id = c → r.due_date.InRange) (n : Nat) :
    ∀ d ∈ genDates last.year last.month n, hasDueB s c d = false := by
  intro d hd
  obtain ⟨i, hi1, rfl⟩ := mem_genDates hd
  rw [hasDueB_false_iff]
  intro r hr hrc he
  have hub := lastDueDate_ub hl r (mem_rowsOf.mpr ⟨hr, hrc⟩)
  obtain ⟨rl, hrl, hrld⟩ := lastDueDate_mem hl
  have hlr : last.InRange := by
    have := hval rl (mem_rowsOf.mp hrl).1 (mem_rowsOf.mp hrl).2
    rwa [hrld] at this
  have hk := dueFor_key_gt hlr.1 hlr.2.1 hlr.2.2 hi1
  rw [he] at hub
  omega

theorem absence_anchor {s : Store} {c : Nat} {fod : Date}
    (hval : ∀ r ∈ s.rows, r.client_id = c → r.due_date.InRange) (n : Nat) :
    ∀ d ∈ genDates (anchorOf s c fod).1 (anchorOf s c fod).2 n, hasDueB s c d = false := by
  cases hl : lastDueDate s c with
  | none =>
    intro d _
    exact hasDueB_false_of_empty (lastDueDate_none_iff.mp hl) d
  | some last =>
    have ha : anchorOf s c fod = (last.year, last.month) := by
      simp [anchorOf, hl]
    rw [ha]
    exact hasDueB_false_of_last hl hval n

theorem ensureRest_noop_price {price : ℚ} {fod : Date} {c : Nat} {s : Store}
    (hp : price ≤ 0) : ensureRest price fod c s = s := by
  simp [ensureRest, hp]

theorem ensureRest_noop_full {price : ℚ} {fod : Date} {c : Nat} {s : Store}
    (hc : ¬ countPending s c < 12) : ensureRest price fod c s = s := by
  by_cases hp : price ≤ 0 <;> simp [ensureRest, hp, hc]

theorem ensureRest_rows {price : ℚ} {fod : Date} {c : Nat} {s : Store}
    (hp : 0 < price) (hc : countPending s c < 12)
    (hval : ∀ r ∈ s.rows, r.client_id = c → r.due_date.InRange) :
    ensureRest price fod c s =
      ⟨s.rows ++ newRows c price s.next_id
          (genDates (anchorOf s c fod).1 (anchorOf s c fod).2 (12 - countPending s c)),
        s.next_id + (12 - countPending s c)⟩ := by
  have h1 : ensureRest price fod c s =
      insertLoop c price
        (genDates (anchorOf s c fod).1 (anchorOf s c fod).2 (12 - countPending s c)) s := by
    simp [ensureRest, not_le.mpr hp, hc]
  rw [h1, insertLoop_eq _ _ _ _ (genDates_pairwise _ _ _) (absence_anchor hval _),
    genDates_length]

theorem countPending_next_id (rows : List Invoice) (n m c : Nat) :
    countPending ⟨rows, n⟩ c = countPending ⟨rows, m⟩ c := rfl

theorem countPending_ensureRest {price : ℚ} {fod : Date} {c : Nat} {s : Store}
    (hp : 0 < price) (hc : countPending s c < 12)
    (hval : ∀ r ∈ s.rows, r.client_id = c → r.due_date.InRange) :
    countPending (ensureRest price fod c s) c = 12 := by
  rw [ensureRest_rows hp hc hval]
  rw [countPending_append _ _ _ s.next_id, countPending_next_id _ _ s.next_id,
    countPending_newRows, genDates_length]
  have he : countPending ⟨s.rows, s.next_id⟩ c = countPending s c := rfl
  rw [he]
  omega

theorem countPending_ensure_eq_12 {env : Env} {c : Nat} {s : Store}
    (hp : 0 < (discoverPrice env c).1)
    (hval : ∀ r ∈ s.rows, r.client_id = c → r.due_date.InRange)
    (hle : countPending s c ≤ 12) :
    countPending (ensure_future_invoices env c s) c = 12 := by
  by_cases hc : countPending s c < 12
  · exact countPending_ensureRest hp hc hval
  · unfold ensure_future_invoices
    rw [ensureRest_noop_full hc]
    omega

theorem ensure_noop_of_price_nonpos {env : Env} {c : Nat} {s : Store}
    (hp : (discoverPrice env c).1 ≤ 0) : ensure_future_invoices env c s = s :=
  ensureRest_noop_price hp

theorem ensure_noop_of_full {env : Env} {c : Nat} {s : Store}
    (hc : ¬ countPending s c < 12) : ensure_future_invoices env c s = s :=
  ensureRest_noop_full hc

/-! ## Invariant preservation and reachable stores -/

theorem dueFor_inRange (y m i : Nat) : (dueFor y m i).InRange := by
  simp only [dueFor, Date.InRange]
  omega

theorem countPending_singleton (x : Invoice) (n c : Nat) :
    countPending ⟨[x], n⟩ c =
      if x.client_id = c ∧ x.status = Status.pending then 1 else 0 := by
  by_cases h1 : x.client_id = c <;> by_cases h2 : x.status = Status.pending <;>
    simp [countPending, rowsOf, h1, h2]

theorem countPending_cons (x : Invoice) (l : List Invoice) (n c : Nat) :
    countPending ⟨x :: l, n⟩ c =
      (if x.client_id = c ∧ x.status = Status.pending then 1 else 0) + countPending ⟨l, n⟩ c := by
  have h := countPending_append [x] l n n c
  simpa [countPending_singleton] using h

theorem countPending_map_le {f : Invoice → Invoice}
    (hf : ∀ r, (f r).client_id = r.client_id ∧
        ((f r).status = Status.pending → r.status = Status.pending)) :
    ∀ (l : List Invoice) (n m c : Nat), countPending ⟨l.map f, n⟩ c ≤ countPending ⟨l, m⟩ c := by
  intro l
  induction l with
  | nil => intro n m c; simp [countPending, rowsOf]
  | cons r rs ih =>
    intro n m c
    have hmap : (r :: rs).map f = f r :: rs.map f := rfl
    rw [hmap, countPending_cons, countPending_cons]
    have hih := ih n m c
    have hc := hf r
    by_cases h1 : (f r).client_id = c ∧ (f r).status = Status.pending
    · have h2 : r.client_id = c ∧ r.status = Status.pending :=
        ⟨hc.1 ▸ h1.1, hc.2 h1.2⟩
      simp only [h1, h2, if_true]
      omega
    · by_cases h2 : r.client_id = c ∧ r.status = Status.pending <;>
        simp only [h1, h2, if_true, if_false] <;> omega

theorem countPending_newRows_other {c c2 : Nat} (hne : c2 ≠ c) (a : ℚ) (n m : Nat)
    (ds : List Date) : countPending ⟨newRows c a n ds, m⟩ c2 = 0 := by
  unfold countPending
  have h : rowsOf ⟨newRows c a n ds, m⟩ c2 = [] := by
    unfold rowsOf
    rw [List.filter_eq_nil_iff]
    intro r hr
    have := (mem_newRows hr).1
    simp [this, hne.symm]
  rw [h]
  rfl

theorem goodStore_ensure {env : Env} {c : Nat} {s : Store} (hg : GoodStore s) :
    GoodStore (ensure_future_invoices env c s) := by
  by_cases hp : (discoverPrice env c).1 ≤ 0
  · rw [ensure_noop_of_price_nonpos hp]; exact hg
  by_cases hc : countPending s c < 12
  swap
  · rw [ensure_noop_of_full hc]; exact hg
  push_neg at hp
  have hval : ∀ r ∈ s.rows, r.client_id = c → r.due_date.InRange := fun r hr _ => hg.1 r hr
  have h12 : countPending (ensure_future_invoices env c s) c = 12 :=
    countPending_ensureRest hp hc hval
  have hrows : ensure_future_invoices env c s =
      ⟨s.rows ++ newRows c (discoverPrice env c).1 s.next_id
          (genDates (anchorOf s c (discoverPrice env c).2).1
            (anchorOf s c (discoverPrice env c).2).2 (12 - countPending s c)),
        s.next_id + (12 - countPending s c)⟩ :=
    ensureRest_rows hp hc hval
  refine ⟨?_, ?_, ?_⟩
  · intro r hr
    rw [hrows] at hr
    rcases List.mem_append.mp hr with h | h
    · exact hg.1 r h
    · obtain ⟨_, _, _, hd⟩ := mem_newRows h
      obtain ⟨i, _, heq⟩ := mem_genDates hd
      rw [heq]
      exact dueFor_inRange _ _ _
  · intro c2
    by_cases hcc : c2 = c
    · subst hcc; omega
    · rw [hrows, countPending_append _ _ _ s.next_id,
        countPending_newRows_other hcc _ _ s.next_id]
      have he : countPending ⟨s.rows, s.next_id + (12 - countPending s c)⟩ c2
          = countPending s c2 := rfl
      rw [he]
      have := hg.2.1 c2
      omega
  · intro r hr
    rw [hrows] at hr
    rcases List.mem_append.mp hr with h | h
    · exact hg.2.2 r h
    · have := (mem_newRows h).2.1
      rw [this]
      exact le_of_lt hp

theorem goodStore_map {s : Store} {f : Invoice → Invoice}
    (hf : ∀ r, (f r).client_id = r.client_id ∧ (f r).due_date = r.due_date ∧
        (f r).amount = r.amount ∧ ((f r).status = Status.pending → r.status = Status.pending))
    (hg : GoodStore s) : GoodStore ⟨s.rows.map f, s.next_id⟩ := by
  refine ⟨?_, ?_, ?_⟩
  · intro r hr
    obtain ⟨r0, hr0, rfl⟩ := List.mem_map.mp hr
    rw [(hf r0).2.1]
    exact hg.1 r0 hr0
  · intro c2
    calc countPending ⟨s.rows.map f, s.next_id⟩ c2
        ≤ countPending ⟨s.rows, s.next_id⟩ c2 :=
          countPending_map_le (fun r => ⟨(hf r).1, (hf r).2.2.2⟩) s.rows _ _ c2
      _ = countPending s c2 := rfl
      _ ≤ 12 := hg.2.1 c2
  · intro r hr
    obtain ⟨r0, hr0, rfl⟩ := List.mem_map.mp hr
    rw [(hf r0).2.2.1]
    exact hg.2.2 r0 hr0

theorem goodStore_payInvoice {s : Store} (i : Nat) (hg : GoodStore s) :
    GoodStore (payInvoice i s) := by
  refine @goodStore_map s
    (fun r => if r.id = i then { r with status := Status.paid } else r) ?_ hg
  intro r
  by_cases h : r.id = i <;> simp [h]

theorem goodStore_payAllPending {s : Store} (c : Nat) (hg : GoodStore s) :
    GoodStore (payAllPending c s) := by
  refine @goodStore_map s
    (fun r => if r.client_id = c ∧ r.status = Status.pending
      then { r with status := Status.paid } else r) ?_ hg
  intro r
  by_cases h : r.client_id = c ∧ r.status = Status.pending <;> simp [h]

theorem reachable_goodStore {s : Store} (h : Reachable s) : GoodStore s := by
  induction h with
  | empty =>
    refine ⟨?_, ?_, ?_⟩ <;> intro x <;> simp [countPending, rowsOf]
  | ensure env c h ih => exact goodStore_ensure ih
  | dash env c h ih => exact goodStore_ensure ih
  | pay i h ih => exact goodStore_payInvoice i ih
  | payAll c h ih => exact goodStore_payAllPending c ih

/-! ## Claims -/

/-- Claim C1: for every subscriber for whom a positive monthly price is
discoverable, after a successful call to `ensure_future_invoices` the store
holds exactly 12 pending invoices for that subscriber; when no positive
price is discoverable the call changes nothing in the store.  (Stated over
program-reachable stores.) -/
theorem C1_window_invariant (env : Env) (c : Nat) (s : Store) (hs : Reachable s) :
    (0 < (discoverPrice env c).1 →
      countPending (ensure_future_invoices env c s) c = 12)
    ∧ ((discoverPrice env c).1 ≤ 0 → ensure_future_invoices env c s = s) := by
  have hg := reachable_goodStore hs
  refine ⟨fun hp => ?_, fun hp => ensure_noop_of_price_nonpos hp⟩
  exact countPending_ensure_eq_12 hp (fun r hr _ => hg.1 r hr) (hg.2.1 c)

/-- Witness for C1: the empty store is reachable, the fixture environment
has a discoverable price 100, and after one call the window holds 12. -/
theorem C1_window_invariant_witness :
    0 < (discoverPrice envGrace 1).1
      ∧ countPending (ensure_future_invoices envGrace 1 store0) 1 = 12 := by
  have h := C1_window_invariant envGrace 1 store0 Reachable.empty
  exact ⟨by decide, h.1 (by decide)⟩

/-! Due-date uniqueness machinery (claim C6). -/

theorem rowsOf_appendRow_other {s : Store} {c c2 : Nat} (h : c2 ≠ c) (a : ℚ) (d : Date) :
    rowsOf (appendRow c a d s) c2 = rowsOf s c2 := by
  unfold rowsOf appendRow
  rw [List.filter_append]
  have hnil : List.filter (fun r => decide (r.client_id = c2))
      [(⟨s.next_id, c, a, d, Status.pending⟩ : Invoice)] = [] := by
    simp [Ne.symm h]
  rw [hnil, List.append_nil]

theorem rowsOf_appendRow_self {s : Store} {c : Nat} (a : ℚ) (d : Date) :
    rowsOf (appendRow c a d s) c = rowsOf s c ++ [⟨s.next_id, c, a, d, Status.pending⟩] := by
  unfold rowsOf appendRow
  rw [List.filter_append]
  simp

theorem distinctDues_insertIfAbsent {s : Store} {c : Nat} {a : ℚ} {d : Date}
    (hg : DistinctDues s) : DistinctDues (insertIfAbsent c a d s) := by
  by_cases hB : hasDueB s c d
  · simpa [insertIfAbsent, hB] using hg
  · have hB2 : hasDueB s c d = false := by simpa using hB
    have hred : insertIfAbsent c a d s = appendRow c a d s := by
      simp [insertIfAbsent, hB2]
    rw [hred]
    intro c2
    by_cases hc2 : c2 = c
    · subst hc2
      rw [rowsOf_appendRow_self]
      rw [List.pairwise_append]
      refine ⟨hg c2, by simp, ?_⟩
      intro x hx b hb
      have hb2 : b = ⟨s.next_id, c2, a, d, Status.pending⟩ := by simpa using hb
      subst hb2
      have hx2 := mem_rowsOf.mp hx
      have := hasDueB_false_iff.mp hB2 x hx2.1 hx2.2
      simpa using this
    · rw [rowsOf_appendRow_other hc2]
      exact hg c2

theorem distinctDues_insertLoop {c : Nat} {a : ℚ} :
    ∀ (ds : List Date) (s : Store), DistinctDues s → DistinctDues (insertLoop c a ds s) := by
  intro ds
  induction ds with
  | nil => intro s h; exact h
  | cons d ds ih =>
    intro s h
    exact ih _ (distinctDues_insertIfAbsent h)

theorem distinctDues_ensure {env : Env} {c : Nat} {s : Store} (h : DistinctDues s) :
    DistinctDues (ensure_future_invoices env c s) := by
  unfold ensure_future_invoices ensureRest
  split
  · exact h
  · split
    · exact distinctDues_insertLoop _ _ h
    · exact h

theorem rowsOf_map {s : Store} {f : Invoice → Invoice}
    (hf : ∀ r, (f r).client_id = r.client_id) (c : Nat) :
    rowsOf ⟨s.rows.map f, s.next_id⟩ c = (rowsOf s c).map f := by
  unfold rowsOf
  rw [List.filter_map]
  have hpred : ((fun r => decide (r.client_id = c)) ∘ f)
      = (fun r : Invoice => decide (r.client_id = c)) := by
    funext r
    simp [Function.comp, hf r]
  rw [hpred]

theorem distinctDues_map {s : Store} {f : Invoice → Invoice}
    (hf : ∀ r, (f r).client_id = r.client_id ∧ (f r).due_date = r.due_date)
    (h : DistinctDues s) : DistinctDues ⟨s.rows.map f, s.next_id⟩ := by
  intro c
  rw [rowsOf_map (fun r => (hf r).1)]
  refine List.Pairwise.map f ?_ (h c)
  intro a b hab
  rw [(hf a).2, (hf b).2]
  exact hab

theorem distinctDues_payInvoice {s : Store} (i : Nat) (h : DistinctDues s) :
    DistinctDues (payInvoice i s) := by
  refine @distinctDues_map s
    (fun r => if r.id = i then { r with status := Status.paid } else r) ?_ h
  intro r
  by_cases hr : r.id = i <;> simp [hr]

theorem distinctDues_payAllPending {s : Store} (c : Nat) (h : DistinctDues s) :
    DistinctDues (payAllPending c s) := by
  refine @distinctDues_map s
    (fun r => if r.client_id = c ∧ r.status = Status.pending
      then { r with status := Status.paid } else r) ?_ h
  intro r
  by_cases hr : r.client_id = c ∧ r.status = Status.pending <;> simp [hr]

/-- Claim C6: in every program-reachable invoice-store state, no two
invoices of the same subscriber share a due date, and both core operations
(`ensure_future_invoices`, and `get_financial_dashboard`'s store effect)
preserve this invariant on any store that satisfies it. -/
theorem C6_due_date_uniqueness :
    (∀ s : Store, Reachable s → DistinctDues s)
    ∧ (∀ (env : Env) (c : Nat) (s : Store), DistinctDues s →
        DistinctDues (ensure_future_invoices env c s)
          ∧ DistinctDues (get_financial_dashboard env c s).2) := by
  constructor
  · intro s h
    induction h with
    | empty => intro c; simp [rowsOf]
    | ensure env c h ih => exact distinctDues_ensure ih
    | dash env c h ih => exact distinctDues_ensure ih
    | pay i h ih => exact distinctDues_payInvoice i ih
    | payAll c h ih => exact distinctDues_payAllPending c ih
  · intro env c s h
    exact ⟨distinctDues_ensure h, distinctDues_ensure h⟩

/-- Witness for C6: the store after one scheduler run on the reachable
empty store has pairwise-distinct due dates per subscriber. -/
theorem C6_due_date_uniqueness_witness :
    DistinctDues (ensure_future_invoices envGrace 1 store0) :=
  C6_due_date_uniqueness.1 _ (Reachable.ensure envGrace 1 Reachable.empty)

/-! Month arithmetic (claim C3). -/

theorem nextMonth_idx (n : Nat) :
    nextMonth (n / 12, n % 12 + 1) = ((n + 1) / 12, (n + 1) % 12 + 1) := by
  by_cases h : n % 12 + 1 = 12 <;> simp [nextMonth, h, Prod.ext_iff] <;> omega

theorem iterate_nextMonth (y m : Nat) (h1 : 1 ≤ m) (h2 : m ≤ 12) :
    ∀ i : Nat, nextMonth^[i] (y, m)
      = ((12 * y + (m - 1) + i) / 12, (12 * y + (m - 1) + i) % 12 + 1) := by
  intro i
  induction i with
  | zero =>
    simp only [Function.iterate_zero, id_eq]
    have ha : (12 * y + (m - 1) + 0) / 12 = y := by omega
    have hb : (12 * y + (m - 1) + 0) % 12 + 1 = m := by omega
    rw [ha, hb]
  | succ i ih =>
    rw [Function.iterate_succ_apply', ih, nextMonth_idx]
    have harg : 12 * y + (m - 1) + i + 1 = 12 * y + (m - 1) + (i + 1) := by omega
    rw [harg]

theorem dueFor_eq_iterate {y m : Nat} (h1 : 1 ≤ m) (h2 : m ≤ 12) (i : Nat) (hi : 1 ≤ i) :
    dueFor y m i = ⟨(nextMonth^[i] (y, m)).1, (nextMonth^[i] (y, m)).2, 10⟩ := by
  rw [iterate_nextMonth y m h1 h2 i]
  simp only [dueFor, Date.mk.injEq]
  exact ⟨by omega, by omega, trivial⟩

/-- Claim C3: the `i`-th generated invoice is due on the 10th of (anchor
month + `i`), with the year rolling over past December; in particular from
a latest existing invoice due 2024-03-10 the generated due dates continue
2024-04-10, 2024-05-10, ... through 2025-02-10. -/
theorem C3_month_sequence (y m : Nat) (h1 : 1 ≤ m) (h2 : m ≤ 12) :
    (∀ i, 1 ≤ i → dueFor y m i
        = ⟨(nextMonth^[i] (y, m)).1, (nextMonth^[i] (y, m)).2, 10⟩)
    ∧ (rowsOf (ensure_future_invoices envGrace 1 storeMar) 1).map (fun r => r.due_date)
        = [⟨2024, 3, 10⟩, ⟨2024, 4, 10⟩, ⟨2024, 5, 10⟩, ⟨2024, 6, 10⟩, ⟨2024, 7, 10⟩,
           ⟨2024, 8, 10⟩, ⟨2024, 9, 10⟩, ⟨2024, 10, 10⟩, ⟨2024, 11, 10⟩, ⟨2024, 12, 10⟩,
           ⟨2025, 1, 10⟩, ⟨2025, 2, 10⟩] := by
  exact ⟨fun i hi => dueFor_eq_iterate h1 h2 i hi, by decide⟩

/-- Witness for C3: the month bounds hold at anchor month 3, and one step
from (2024, 3) lands on 2024-04-10. -/
theorem C3_month_sequence_witness :
    (1 ≤ 3 ∧ 3 ≤ 12)
      ∧ dueFor 2024 3 1 = ⟨(nextMonth^[1] (2024, 3)).1, (nextMonth^[1] (2024, 3)).2, 10⟩ :=
  ⟨⟨by decide, by decide⟩, (C3_month_sequence 2024 3 (by decide) (by decide)).1 1 (by decide)⟩

/-! Grace-period arithmetic (claim C2). -/

theorem daysInMonth_pos (y m : Nat) : 1 ≤ daysInMonth y m := by
  unfold daysInMonth
  split
  · split <;> omega
  · split <;> omega

theorem valid_mk {y m dd : Nat} (hy : 1 ≤ y) (hm1 : 1 ≤ m) (hm2 : m ≤ 12) (hd1 : 1 ≤ dd)
    (hd2 : dd ≤ daysInMonth y m) : (Date.mk y m dd).Valid :=
  ⟨hy, hm1, hm2, hd1, hd2⟩

theorem next_valid {d : Date} (h : d.Valid) : d.next.Valid := by
  obtain ⟨hy, hm1, hm2, hd1, hd2⟩ := h
  unfold Date.next
  by_cases h1 : d.day < daysInMonth d.year d.month
  · rw [if_pos h1]
    exact valid_mk hy hm1 hm2 (by omega) (by omega)
  · rw [if_neg h1]
    by_cases h2 : d.month < 12
    · rw [if_pos h2]
      exact valid_mk hy (by omega) (by omega) (by omega) (daysInMonth_pos _ _)
    · rw [if_neg h2]
      exact valid_mk (by omega) (by omega) (by omega) (by omega) (daysInMonth_pos _ _)

theorem addDays_valid {d : Date} (h : d.Valid) : ∀ n, (d.addDays n).Valid := by
  intro n
  induction n with
  | zero => exact h
  | succ n ih => exact next_valid ih

theorem graceFirstDue_bounds {fod : Date} (h : fod.Valid) :
    1 ≤ (graceFirstDue fod).month ∧ (graceFirstDue fod).month ≤ 12
      ∧ 1 ≤ (graceFirstDue fod).year ∧ (graceFirstDue fod).day = 10 := by
  have hfv := addDays_valid h 30
  unfold graceFirstDue
  generalize hfu : fod.addDays 30 = fu
  rw [hfu] at hfv
  obtain ⟨hy, hm1, hm2, _, _⟩ := hfv
  rcases fu with ⟨fy, fm, fd⟩
  simp only at hy hm1 hm2 ⊢
  split_ifs with hk hm
  · exact ⟨show (1:Nat) ≤ 1 by omega, show (1:Nat) ≤ 12 by omega,
      show 1 ≤ fy + 1 by omega, rfl⟩
  · exact ⟨show 1 ≤ fm + 1 by omega, show fm + 1 ≤ 12 by omega,
      show 1 ≤ fy from hy, rfl⟩
  · exact ⟨show 1 ≤ fm from hm1, show fm ≤ 12 from hm2, show 1 ≤ fy from hy, rfl⟩

theorem graceAnchor_roundtrip {fod : Date} (h : fod.Valid) :
    dueFor (graceAnchor fod).1 (graceAnchor fod).2 1 = graceFirstDue fod := by
  obtain ⟨hm1, hm2, hy, hd⟩ := graceFirstDue_bounds h
  unfold graceAnchor
  rcases hgf : graceFirstDue fod with ⟨gy, gm, gd⟩
  rw [hgf] at hm1 hm2 hy hd
  simp only at hm1 hm2 hy hd ⊢
  subst hd
  by_cases hz : gm - 1 = 0
  · rw [if_pos hz]
    have hgm : gm = 1 := by omega
    subst hgm
    show dueFor (gy - 1) 12 1 = ⟨gy, 1, 10⟩
    unfold dueFor
    rw [Date.mk.injEq]
    exact ⟨by omega, by omega, rfl⟩
  · rw [if_neg hz]
    show dueFor gy (gm - 1) 1 = ⟨gy, gm, 10⟩
    unfold dueFor
    rw [Date.mk.injEq]
    exact ⟨by omega, by omega, rfl⟩

theorem rowsOf_next_id (rows : List Invoice) (n m c : Nat) :
    rowsOf ⟨rows, n⟩ c = rowsOf ⟨rows, m⟩ c := rfl

theorem rowsOf_ensureRest_insert {price : ℚ} {fod : Date} {c : Nat} {s : Store}
    (hp : 0 < price) (hc : countPending s c < 12)
    (hval : ∀ r ∈ s.rows, r.client_id = c → r.due_date.InRange) :
    rowsOf (ensureRest price fod c s) c
      = rowsOf s c ++ newRows c price s.next_id
          (genDates (anchorOf s c fod).1 (anchorOf s c fod).2 (12 - countPending s c)) := by
  rw [ensureRest_rows hp hc hval, rowsOf_append]
  have h2 : rowsOf ⟨s.rows, s.next_id + (12 - countPending s c)⟩ c = rowsOf s c := rfl
  rw [h2, rowsOf_newRows]

/-- Claim C2: for a subscriber with no existing invoice and a discoverable
positive price, the first generated due date is the 10th of the month of
`freeUntil = firstOrderDate + 30 days`, advanced one month when that 10th
is strictly earlier than `freeUntil` (the content of `graceFirstDue`); in
particular a first order on 2024-01-15 yields first due date 2024-03-10. -/
theorem C2_grace_period (env : Env) (c : Nat) (s : Store)
    (hempty : rowsOf s c = [])
    (hp : 0 < (discoverPrice env c).1)
    (hfod : ((discoverPrice env c).2).Valid) :
    (∃ rest, (rowsOf (ensure_future_invoices env c s) c).map (fun r => r.due_date)
        = graceFirstDue ((discoverPrice env c).2) :: rest)
      ∧ ((rowsOf (ensure_future_invoices envGrace 1 store0) 1).map (fun r => r.due_date)).head?
          = some ⟨2024, 3, 10⟩ := by
  refine ⟨?_, by decide⟩
  have hc0 : countPending s c = 0 := by
    unfold countPending
    rw [hempty]
    rfl
  have hc : countPending s c < 12 := by omega
  have hval : ∀ r ∈ s.rows, r.client_id = c → r.due_date.InRange := by
    intro r hr hrc
    have hmem : r ∈ rowsOf s c := mem_rowsOf.mpr ⟨hr, hrc⟩
    rw [hempty] at hmem
    exact absurd hmem (List.not_mem_nil r)
  have hanchor : anchorOf s c (discoverPrice env c).2 = graceAnchor (discoverPrice env c).2 := by
    unfold anchorOf
    rw [lastDueDate_none_iff.mpr hempty]
  have hrows := @rowsOf_ensureRest_insert (discoverPrice env c).1 (discoverPrice env c).2
    c s hp hc hval
  rw [hempty, List.nil_append, hanchor, hc0] at hrows
  have hmap : (rowsOf (ensure_future_invoices env c s) c).map (fun r => r.due_date)
      = genDates (graceAnchor (discoverPrice env c).2).1
          (graceAnchor (discoverPrice env c).2).2 12 := by
    unfold ensure_future_invoices
    rw [hrows]
    exact newRows_map_due _ _ _ _
  have hgen : genDates (graceAnchor (discoverPrice env c).2).1
      (graceAnchor (discoverPrice env c).2).2 12
      = graceFirstDue ((discoverPrice env c).2)
          :: (List.range' 2 11).map
              (dueFor (graceAnchor (discoverPrice env c).2).1
                (graceAnchor (discoverPrice env c).2).2) := by
    have hr12 : List.range' 1 12 = 1 :: List.range' 2 11 := rfl
    unfold genDates
    rw [hr12, List.map_cons, graceAnchor_roundtrip hfod]
  exact ⟨_, by rw [hmap, hgen]⟩

/-- Witness for C2: the hypotheses hold at the fixture (empty store, order
dated 2024-01-15, monthly price 100), and the first generated due date is
the grace-rule date. -/
theorem C2_grace_period_witness :
    (rowsOf store0 1 = [] ∧ 0 < (discoverPrice envGrace 1).1
        ∧ ((discoverPrice envGrace 1).2).Valid)
      ∧ ∃ rest, (rowsOf (ensure_future_invoices envGrace 1 store0) 1).map (fun r => r.due_date)
          = graceFirstDue ((discoverPrice envGrace 1).2) :: rest :=
  ⟨⟨by decide, by decide, by decide⟩,
    (C2_grace_period envGrace 1 store0 (by decide) (by decide) (by decide)).1⟩

/-- Claim C5: calling `ensure_future_invoices` twice in a row with no
intervening store changes produces exactly the store of a single call: the
second call inserts nothing and changes no stored invoice. -/
theorem C5_idempotent (env : Env) (c : Nat) (s : Store)
    (hval : ∀ r ∈ s.rows, r.client_id = c → r.due_date.InRange) :
    ensure_future_invoices env c (ensure_future_invoices env c s)
      = ensure_future_invoices env c s := by
  by_cases hp : (discoverPrice env c).1 ≤ 0
  · simp only [ensure_noop_of_price_nonpos hp]
  · push_neg at hp
    by_cases hc : countPending s c < 12
    · have h12 : countPending (ensure_future_invoices env c s) c = 12 :=
        countPending_ensureRest hp hc hval
      exact ensure_noop_of_full (by omega)
    · simp only [ensure_noop_of_full hc]

/-- Witness for C5: idempotence at the empty store and fixture environment. -/
theorem C5_idempotent_witness :
    (∀ r ∈ store0.rows, r.client_id = 1 → r.due_date.InRange)
      ∧ ensure_future_invoices envGrace 1 (ensure_future_invoices envGrace 1 store0)
          = ensure_future_invoices envGrace 1 store0 :=
  ⟨by decide, C5_idempotent envGrace 1 store0 (by decide)⟩

/-! Dashboard classification machinery (claims C4, C7, C9). -/

theorem classify_foldl (today : Date) :
    ∀ (L : List Invoice) (info : DashInfo),
      L.foldl (classifyStep today) info =
        { status_global :=
            if L.any (isLate today) then GlobalStatus.overdue
            else if info.status_global = GlobalStatus.overdue then GlobalStatus.overdue
            else if L.any (isDueNow today) then GlobalStatus.warning
            else info.status_global
          message :=
            if L.any (isLate today) then Message.bloqueado
            else if info.message = Message.bloqueado then Message.bloqueado
            else if L.any (isDueNow today) then Message.vence_hoje
            else info.message
          invoices := info.invoices ++ L.map (viewOf today)
          total_pending := info.total_pending + (L.map (fun r => r.amount)).sum
          total_annual_discounted := info.total_annual_discounted
          annual_savings := info.annual_savings } := by
  intro L
  induction L with
  | nil =>
    intro info
    rcases info with ⟨st, msg, invs, tp, tad, sav⟩
    by_cases h1 : st = GlobalStatus.overdue <;> by_cases h2 : msg = Message.bloqueado <;>
      simp [h1, h2]
  | cons inv L ih =>
    intro info
    rw [List.foldl_cons, ih]
    by_cases hlate : 3 < today.sub inv.due_date
    · have hl : isLate today inv = true := by simp [isLate, deltaOf, hlate]
      simp [classifyStep, hlate, hl, viewOf, labelFor, deltaOf, List.append_assoc, add_assoc]
    · by_cases hdue : 0 ≤ today.sub inv.due_date
      · have hl : isLate today inv = false := by simp [isLate, deltaOf, hlate]
        have hd : isDueNow today inv = true := by
          simp [isDueNow, deltaOf, hdue]
          omega
        by_cases hst : info.status_global = GlobalStatus.overdue <;>
          by_cases hmsg : info.message = Message.bloqueado <;>
            simp [classifyStep, hlate, hdue, hl, hd, hst, hmsg, viewOf, labelFor, deltaOf,
              List.append_assoc, add_assoc]
      · have hl : isLate today inv = false := by simp [isLate, deltaOf, hlate]
        have hd : isDueNow today inv = false := by
          simp [isDueNow, deltaOf]
          omega
        simp [classifyStep, hlate, hdue, hl, hd, viewOf, labelFor, deltaOf,
          List.append_assoc, add_assoc]

theorem classifyAll_eq (today : Date) (L : List Invoice) :
    classifyAll today L =
      ⟨statusOf today L, messageOf today L, L.map (viewOf today),
        (L.map (fun r => r.amount)).sum, 0, 0⟩ := by
  unfold classifyAll statusOf messageOf
  rw [classify_foldl]
  by_cases h1 : L.any (isLate today) <;> by_cases h2 : L.any (isDueNow today) <;>
    simp [h1, h2, defaultInfo]

theorem finalizeTotals_fields (info : DashInfo) :
    (finalizeTotals info).status_global = info.status_global
    ∧ (finalizeTotals info).message = info.message
    ∧ (finalizeTotals info).invoices = info.invoices
    ∧ (finalizeTotals info).total_pending = info.total_pending := by
  unfold finalizeTotals
  split_ifs <;> simp

theorem dashboard_status (env : Env) (c : Nat) (s : Store) :
    (get_financial_dashboard env c s).1.status_global
      = statusOf env.today (pendingSorted (ensure_future_invoices env c s) c) := by
  unfold get_financial_dashboard
  rw [(finalizeTotals_fields _).1, classifyAll_eq]

theorem dashboard_invoices (env : Env) (c : Nat) (s : Store) :
    (get_financial_dashboard env c s).1.invoices
      = (pendingSorted (ensure_future_invoices env c s) c).map (viewOf env.today) := by
  unfold get_financial_dashboard
  rw [(finalizeTotals_fields _).2.2.1, classifyAll_eq]

theorem dashboard_total_pending (env : Env) (c : Nat) (s : Store) :
    (get_financial_dashboard env c s).1.total_pending
      = ((pendingSorted (ensure_future_invoices env c s) c).map (fun r => r.amount)).sum := by
  unfold get_financial_dashboard
  rw [(finalizeTotals_fields _).2.2.2, classifyAll_eq]

/-- Claim C4: per pending invoice with `delta = today - due_date` in days,
the classification pass labels it overdue (`"ATRASADO"`) and forces the
global status to overdue (never later downgraded) when `delta > 3`, labels
it due-today (`"VENCE HOJE"`) and raises the status to warning only when
not already overdue (and never overwrites the overdue message) when
`0 <= delta <= 3`, and labels it open-future with no effect on the global
status or message when `delta < 0`; the three spec scenarios of the
dashboard follow. -/
theorem C4_classification (today : Date) (L : List Invoice) :
    ((classifyAll today L).invoices = L.map (viewOf today))
    ∧ ((classifyAll today L).status_global = GlobalStatus.overdue
        ↔ ∃ inv ∈ L, 3 < deltaOf today inv)
    ∧ ((classifyAll today L).status_global = GlobalStatus.warning
        ↔ ((¬ ∃ inv ∈ L, 3 < deltaOf today inv)
            ∧ ∃ inv ∈ L, 0 ≤ deltaOf today inv ∧ deltaOf today inv ≤ 3))
    ∧ ((classifyAll today L).message = Message.bloqueado
        ↔ ∃ inv ∈ L, 3 < deltaOf today inv)
    ∧ (∀ (info : DashInfo) (inv : Invoice), deltaOf today inv < 0 →
        (classifyStep today info inv).status_global = info.status_global
          ∧ (classifyStep today info inv).message = info.message
          ∧ (classifyStep today info inv).invoices
              = info.invoices ++ [⟨inv.id, inv.amount, Label.em_aberto_futura⟩])
    ∧ (get_financial_dashboard (envND ⟨2024, 3, 14⟩) 1 storeMar).1.status_global
        = GlobalStatus.overdue
    ∧ (get_financial_dashboard (envND ⟨2024, 3, 12⟩) 1 storeMar).1.status_global
        = GlobalStatus.warning
    ∧ ((get_financial_dashboard (envND ⟨2024, 3, 12⟩) 1 storeApr).1.status_global
          = GlobalStatus.ok
        ∧ (get_financial_dashboard (envND ⟨2024, 3, 12⟩) 1 storeApr).1.invoices
            = [⟨7, 100, Label.em_aberto_futura⟩]) := by
  have hany : ∀ L2 : List Invoice,
      L2.any (isLate today) = true ↔ ∃ inv ∈ L2, 3 < deltaOf today inv := by
    intro L2
    simp [List.any_eq_true, isLate]
  have hany2 : ∀ L2 : List Invoice,
      L2.any (isDueNow today) = true
        ↔ ∃ inv ∈ L2, 0 ≤ deltaOf today inv ∧ deltaOf today inv ≤ 3 := by
    intro L2
    simp [List.any_eq_true, isDueNow]
  refine ⟨?_, ?_, ?_, ?_, ?_, ?_, ?_, ?_, ?_⟩
  · rw [classifyAll_eq]
  · rw [classifyAll_eq]
    show statusOf today L = GlobalStatus.overdue ↔ _
    unfold statusOf
    rw [← hany]
    by_cases h1 : L.any (isLate today) <;> by_cases h2 : L.any (isDueNow today) <;>
      simp [h1, h2]
  · rw [classifyAll_eq]
    show statusOf today L = GlobalStatus.warning ↔ _
    unfold statusOf
    rw [← hany, ← hany2]
    by_cases h1 : L.any (isLate today) <;> by_cases h2 : L.any (isDueNow today) <;>
      simp [h1, h2]
  · rw [classifyAll_eq]
    show messageOf today L = Message.bloqueado ↔ _
    unfold messageOf
    rw [← hany]
    by_cases h1 : L.any (isLate today) <;> by_cases h2 : L.any (isDueNow today) <;>
      simp [h1, h2]
  · intro info inv hneg
    have h1 : ¬ 3 < today.sub inv.due_date := by unfold deltaOf at hneg; omega
    have h2 : ¬ 0 ≤ today.sub inv.due_date := by unfold deltaOf at hneg; omega
    simp [classifyStep, h1, h2]
  · rw [dashboard_status]
    decide
  · rw [dashboard_status]
    decide
  · rw [dashboard_status]
    decide
  · rw [dashboard_invoices]
    decide

/-- Witness for C4: a future invoice (due 2024-04-01 seen on 2024-03-12)
leaves the global status of the dashboard state untouched. -/
theorem C4_classification_witness :
    deltaOf ⟨2024, 3, 12⟩ ⟨7, 1, 100, ⟨2024, 4, 1⟩, Status.pending⟩ < 0
      ∧ (classifyStep ⟨2024, 3, 12⟩ defaultInfo
            ⟨7, 1, 100, ⟨2024, 4, 1⟩, Status.pending⟩).status_global
          = defaultInfo.status_global :=
  ⟨by decide,
    ((C4_classification ⟨2024, 3, 12⟩ []).2.2.2.2.1 defaultInfo
      ⟨7, 1, 100, ⟨2024, 4, 1⟩, Status.pending⟩ (by decide)).1⟩

/-! Nonnegative amounts are preserved (claim C7). -/

theorem insertLoop_amounts {c : Nat} {a : ℚ} (ha : 0 ≤ a) :
    ∀ (ds : List Date) (s : Store), (∀ r ∈ s.rows, 0 ≤ r.amount) →
      ∀ r ∈ (insertLoop c a ds s).rows, 0 ≤ r.amount := by
  intro ds
  induction ds with
  | nil => intro s h; exact h
  | cons d ds ih =>
    intro s h
    apply ih
    intro r hr
    simp only [insertIfAbsent] at hr
    by_cases hb : hasDueB s c d
    · rw [if_pos hb] at hr
      exact h r hr
    · rw [if_neg hb] at hr
      rcases List.mem_append.mp hr with h2 | h2
      · exact h r h2
      · have he : r = ⟨s.next_id, c, a, d, Status.pending⟩ := by simpa using h2
        rw [he]
        exact ha

theorem ensure_amounts_nonneg {env : Env} {c : Nat} {s : Store}
    (h : ∀ r ∈ s.rows, 0 ≤ r.amount) :
    ∀ r ∈ (ensure_future_invoices env c s).rows, 0 ≤ r.amount := by
  by_cases hp : (discoverPrice env c).1 ≤ 0
  · rw [ensure_noop_of_price_nonpos hp]
    exact h
  by_cases hc : countPending s c < 12
  · push_neg at hp
    have hred : ensure_future_invoices env c s
        = insertLoop c (discoverPrice env c).1
            (genDates (anchorOf s c (discoverPrice env c).2).1
              (anchorOf s c (discoverPrice env c).2).2 (12 - countPending s c)) s := by
      unfold ensure_future_invoices ensureRest
      rw [if_neg (not_le.mpr hp), if_pos hc]
    rw [hred]
    exact insertLoop_amounts (le_of_lt hp) _ s h
  · rw [ensure_noop_of_full hc]
    exact h

theorem mem_pendingSorted {s : Store} {c : Nat} {r : Invoice} :
    r ∈ pendingSorted s c ↔ r ∈ s.rows ∧ r.client_id = c ∧ r.status = Status.pending := by
  unfold pendingSorted
  rw [(List.perm_insertionSort _ _).mem_iff]
  simp [List.mem_filter]

/-- Claim C7: for every dashboard result (over stores with nonnegative
amounts, as the program maintains), `totalAnnualDiscounted` equals
`totalPending * 0.90` and `annualSavings` equals
`totalPending - totalAnnualDiscounted`, where `totalPending` sums the
pending invoice amounts; in particular `totalPending = 1000` gives
discounted `900` and savings `100`. -/
theorem C7_discount_math (env : Env) (c : Nat) (s : Store)
    (h : ∀ r ∈ s.rows, 0 ≤ r.amount) :
    ((get_financial_dashboard env c s).1.total_annual_discounted
        = (get_financial_dashboard env c s).1.total_pending * (9 / 10))
    ∧ ((get_financial_dashboard env c s).1.annual_savings
        = (get_financial_dashboard env c s).1.total_pending
            - (get_financial_dashboard env c s).1.total_annual_discounted)
    ∧ ((get_financial_dashboard env c s).1.total_pending
        = ((pendingSorted (ensure_future_invoices env c s) c).map (fun r => r.amount)).sum)
    ∧ ((get_financial_dashboard (envND ⟨2024, 1, 1⟩) 1 storeK).1.total_pending = 1000
        ∧ (get_financial_dashboard (envND ⟨2024, 1, 1⟩) 1 storeK).1.total_annual_discounted
            = 900
        ∧ (get_financial_dashboard (envND ⟨2024, 1, 1⟩) 1 storeK).1.annual_savings = 100) := by
  have hfin : ∀ (st : GlobalStatus) (msg : Message) (ivs : List InvView) (tp : ℚ), 0 ≤ tp →
      (finalizeTotals ⟨st, msg, ivs, tp, 0, 0⟩).total_annual_discounted = tp * (9 / 10)
      ∧ (finalizeTotals ⟨st, msg, ivs, tp, 0, 0⟩).annual_savings = tp - tp * (9 / 10)
      ∧ (finalizeTotals ⟨st, msg, ivs, tp, 0, 0⟩).total_pending = tp := by
    intro st msg ivs tp htp
    unfold finalizeTotals
    by_cases h0 : 0 < tp
    · simp [h0]
    · have h00 : tp = 0 := le_antisymm (not_lt.mp h0) htp
      subst h00
      simp
  have hmain : ∀ (env2 : Env) (c2 : Nat) (s2 : Store), (∀ r ∈ s2.rows, 0 ≤ r.amount) →
      ((get_financial_dashboard env2 c2 s2).1.total_annual_discounted
          = (get_financial_dashboard env2 c2 s2).1.total_pending * (9 / 10))
        ∧ ((get_financial_dashboard env2 c2 s2).1.annual_savings
          = (get_financial_dashboard env2 c2 s2).1.total_pending
              - (get_financial_dashboard env2 c2 s2).1.total_annual_discounted)
        ∧ ((get_financial_dashboard env2 c2 s2).1.total_pending
          = ((pendingSorted (ensure_future_invoices env2 c2 s2) c2).map
              (fun r => r.amount)).sum) := by
    intro env2 c2 s2 h2
    have hnn : 0 ≤ ((pendingSorted (ensure_future_invoices env2 c2 s2) c2).map
        (fun r => r.amount)).sum := by
      apply List.sum_nonneg
      intro x hx
      obtain ⟨r, hr, rfl⟩ := List.mem_map.mp hx
      exact ensure_amounts_nonneg h2 r (mem_pendingSorted.mp hr).1
    have hdash : (get_financial_dashboard env2 c2 s2).1
        = finalizeTotals
            ⟨statusOf env2.today (pendingSorted (ensure_future_invoices env2 c2 s2) c2),
              messageOf env2.today (pendingSorted (ensure_future_invoices env2 c2 s2) c2),
              (pendingSorted (ensure_future_invoices env2 c2 s2) c2).map (viewOf env2.today),
              ((pendingSorted (ensure_future_invoices env2 c2 s2) c2).map
                (fun r => r.amount)).sum, 0, 0⟩ := by
      unfold get_financial_dashboard
      rw [classifyAll_eq]
    obtain ⟨hf1, hf2, hf3⟩ := hfin _ _ _ _ hnn
    refine ⟨?_, ?_, ?_⟩
    · rw [hdash, hf1, hf3]
    · rw [hdash, hf2, hf3, hf1]
    · rw [hdash, hf3]
  obtain ⟨g1, g2, g3⟩ := hmain env c s h
  have hck := hmain (envND ⟨2024, 1, 1⟩) 1 storeK (by decide)
  have hlist : (pendingSorted (ensure_future_invoices (envND ⟨2024, 1, 1⟩) 1 storeK) 1).map
      (fun r => r.amount) = [(1000 : ℚ)] := by decide
  have htp : (get_financial_dashboard (envND ⟨2024, 1, 1⟩) 1 storeK).1.total_pending
      = 1000 := by
    rw [hck.2.2, hlist]
    simp
  refine ⟨g1, g2, g3, htp, ?_, ?_⟩
  · rw [hck.1, htp]
    norm_num
  · rw [hck.2.1, hck.1, htp]
    norm_num

/-- Witness for C7: the hypothesis (nonnegative stored amounts) holds at
the 1000-real fixture store, where the discount equation follows. -/
theorem C7_discount_math_witness :
    (∀ r ∈ storeK.rows, 0 ≤ r.amount)
      ∧ (get_financial_dashboard (envND ⟨2024, 1, 1⟩) 1 storeK).1.total_annual_discounted
          = (get_financial_dashboard (envND ⟨2024, 1, 1⟩) 1 storeK).1.total_pending
              * (9 / 10) :=
  ⟨by decide, (C7_discount_math (envND ⟨2024, 1, 1⟩) 1 storeK (by decide)).1⟩

/-- Claim C9: when the dashboard cannot read the invoice store, it
propagates no exception and returns the default result: global status ok,
the "current" message, an empty invoice list, and all totals zero. -/
theorem C9_dashboard_fail_open (oracle : Nat → Bool) (env : Env) (c : Nat) (s : Store) :
    (dashboard_faulty oracle true env c s).1
      = ⟨GlobalStatus.ok, Message.em_dia, [], 0, 0, 0⟩ := rfl

/-! Fallback price and first-order-date tracking (claim C10). -/

theorem scanOrders_no_positive :
    ∀ (l : List OrderRow) (t : Date),
      (∀ o ∈ l, o.total_monthly.getD 0 ≤ 0 ∧ o.price_monthly.getD 0 ≤ 0) →
      scanOrders l t =
        (0, l.foldl (fun acc o2 =>
            match o2.order_date with
            | some d2 => d2
            | none => acc) t) := by
  intro l
  induction l with
  | nil => intro t _; rfl
  | cons o l ih =>
    intro t h
    have h0 := h o (List.mem_cons_self o l)
    unfold scanOrders
    rw [if_neg (not_lt.mpr h0.1), if_neg (not_lt.mpr h0.2), List.foldl_cons]
    exact ih _ (fun o2 ho2 => h o2 (List.mem_cons_of_mem _ ho2))

theorem foldl_lastDate :
    ∀ (l : List OrderRow) (t : Date) (o : OrderRow) (d : Date),
      l.getLast? = some o → o.order_date = some d →
      l.foldl (fun acc o2 =>
          match o2.order_date with
          | some d2 => d2
          | none => acc) t = d := by
  intro l
  induction l with
  | nil => intro t o d h _; simp at h
  | cons o0 l ih =>
    intro t o d hlast hdate
    cases l with
    | nil =>
      have ho : o0 = o := by simpa using hlast
      subst ho
      simp [hdate]
    | cons o1 l2 =>
      rw [List.getLast?_cons_cons] at hlast
      rw [List.foldl_cons]
      exact ih _ o d hlast hdate

/-- Claim C10: when no order of the subscriber yields a positive recurring
amount (so the price comes from the active-product fallback), the
grace-period anchor `first_order_date` is not tied to a priced order: it is
the creation date of the last examined order, or today's date when the
subscriber has no orders at all. -/
theorem C10_fallback_anchor (env : Env) (c : Nat)
    (hnp : ∀ o ∈ env.orders c, o.total_monthly.getD 0 ≤ 0 ∧ o.price_monthly.getD 0 ≤ 0) :
    (env.orders c = [] → (discoverPrice env c).2 = env.today)
    ∧ (∀ (o : OrderRow) (d : Date), (env.orders c).getLast? = some o →
        o.order_date = some d → (discoverPrice env c).2 = d)
    ∧ ((discoverPrice env c).1 =
        match env.defaultPrice with
        | some q => q
        | none => 0) := by
  have hscan := scanOrders_no_positive (env.orders c) env.today hnp
  refine ⟨?_, ?_, ?_⟩
  · intro hnil
    unfold discoverPrice
    rw [hscan, hnil]
    rfl
  · intro o d hlast hdate
    unfold discoverPrice
    rw [hscan]
    exact foldl_lastDate _ _ o d hlast hdate
  · unfold discoverPrice
    rw [hscan]
    simp

/-- Witness for C10: at the fallback fixture (two unpriced orders, an
active product at 50), the anchor is the last order's creation date
2024-02-07 and the price is the fallback 50. -/
theorem C10_fallback_anchor_witness :
    (∀ o ∈ envFB.orders 1, o.total_monthly.getD 0 ≤ 0 ∧ o.price_monthly.getD 0 ≤ 0)
      ∧ (discoverPrice envFB 1).2 = ⟨2024, 2, 7⟩
      ∧ (discoverPrice envFB 1).1 = 50 :=
  ⟨by decide,
    (C10_fallback_anchor envFB 1 (by decide)).2.1
      ⟨none, some 0, some ⟨2024, 2, 7⟩⟩ ⟨2024, 2, 7⟩ (by decide) (by decide),
    by decide⟩

/-! Fault injection: the scheduler transaction is all-or-nothing (claim C8). -/

theorem loopF_cases (oracle : Nat → Bool) (c : Nat) (a : ℚ) :
    ∀ (ds : List Date) (k : Nat) (s : Store),
      loopF oracle c a ds k s = Except.error ()
      ∨ ∃ k2, loopF oracle c a ds k s = Except.ok (k2, insertLoop c a ds s) := by
  intro ds
  induction ds with
  | nil => intro k s; right; exact ⟨k, rfl⟩
  | cons d ds ih =>
    intro k s
    unfold loopF
    by_cases h0 : oracle k
    · left
      rw [if_pos h0]
    rw [if_neg h0]
    by_cases hb : hasDueB s c d
    · rw [if_pos hb]
      have hskip : insertLoop c a (d :: ds) s = insertLoop c a ds s := by
        show insertLoop c a ds (insertIfAbsent c a d s) = insertLoop c a ds s
        rw [show insertIfAbsent c a d s = s from by simp [insertIfAbsent, hb]]
      rcases ih (k + 1) s with h | ⟨k2, h⟩
      · left
        exact h
      · right
        exact ⟨k2, by rw [h, hskip]⟩
    · rw [if_neg hb]
      by_cases h1 : oracle (k + 1)
      · left
        rw [if_pos h1]
      rw [if_neg h1]
      have hstep : insertLoop c a (d :: ds) s = insertLoop c a ds (appendRow c a d s) := by
        show insertLoop c a ds (insertIfAbsent c a d s) = _
        rw [show insertIfAbsent c a d s = appendRow c a d s from by
          simp [insertIfAbsent, hb]]
      rcases ih (k + 2) (appendRow c a d s) with h | ⟨k2, h⟩
      · left
        exact h
      · right
        exact ⟨k2, by rw [h, hstep]⟩

theorem bodyRest_cases (oracle : Nat → Bool) (k : Nat) (price : ℚ) (fod : Date) (c : Nat)
    (s : Store) :
    bodyRest oracle k price fod c s = Except.error ()
      ∨ bodyRest oracle k price fod c s = Except.ok (ensureRest price fod c s) := by
  unfold bodyRest ensureRest
  by_cases hp : price ≤ 0
  · right
    rw [if_pos hp, if_pos hp]
  rw [if_neg hp, if_neg hp]
  by_cases h0 : oracle k
  · left
    rw [if_pos h0]
  rw [if_neg h0]
  by_cases hc : countPending s c < 12
  · rw [if_pos hc, if_pos hc]
    by_cases h1 : oracle (k + 1)
    · left
      rw [if_pos h1]
    rw [if_neg h1]
    rcases loopF_cases oracle c price
        (genDates (anchorOf s c fod).1 (anchorOf s c fod).2 (12 - countPending s c))
        (k + 2) s with h | ⟨k2, h⟩
    · left
      simp only [h]
    · simp only [h]
      by_cases h2 : oracle k2
      · left
        rw [if_pos h2]
      · right
        rw [if_neg h2]
  · rw [if_neg hc, if_neg hc]
    right
    rfl

theorem bodyF_cases (oracle : Nat → Bool) (env : Env) (c : Nat) (s : Store) :
    bodyF oracle env c s = Except.error ()
      ∨ bodyF oracle env c s = Except.ok (ensure_future_invoices env c s) := by
  unfold bodyF ensure_future_invoices discoverPrice
  by_cases h0 : oracle 0
  · left
    simp [h0]
  by_cases h1 : oracle 1
  · left
    simp [h0, h1]
  by_cases hps : (scanOrders (env.orders c) env.today).1 ≤ 0
  · by_cases h2 : oracle 2
    · left
      simp [h0, h1, hps, h2]
    · rcases bodyRest_cases oracle 3
          (match env.defaultPrice with
           | some q => q
           | none => (scanOrders (env.orders c) env.today).1)
          (scanOrders (env.orders c) env.today).2 c s with h | h
      · left
        simp [h0, h1, hps, h2, h]
      · right
        simp [h0, h1, hps, h2, h]
  · rcases bodyRest_cases oracle 2 (scanOrders (env.orders c) env.today).1
        (scanOrders (env.orders c) env.today).2 c s with h | h
    · left
      simp [h0, h1, hps, h]
    · right
      simp [h0, h1, hps, h]

/-- Claim C8: for every input and every pattern of data-access faults, the
fault-aware scheduler returns normally (it is a total function whose errors
are caught), and it commits no partial work: the resulting store is either
exactly the pre-call store (rollback) or exactly the store a fault-free
call produces. -/
theorem C8_all_or_nothing (oracle : Nat → Bool) (env : Env) (c : Nat) (s : Store) :
    ensure_faulty oracle env c s = s
      ∨ ensure_faulty oracle env c s = ensure_future_invoices env c s := by
  rcases bodyF_cases oracle env c s with h | h
  · left
    unfold ensure_faulty
    simp only [h]
  · right
    unfold ensure_faulty
    simp only [h]

end Leanttro
